import Mathlib

/-!
# Verification of the daily-image cache of `app.py` (photogone)

Shallow embedding of `src/app.py`. Conventions of the embedding:

* A calendar date is an integer (its ordinal day number); subtraction of two
  `datetime.date` values in days is subtraction of the ordinals. The hardcoded
  `start_date = date(2024, 1, 1)` becomes an arbitrary integer parameter
  `start` (the ordinal of that date).
* A Python `dict` is an insertion-ordered association list with key overwrite
  (`dictInsert`).
* The filesystem is a function `fs : String → List String` giving, for each
  category subdirectory of `photos/`, the list of file basenames that `glob`
  would enumerate, in the order the OS returns them; `glob(pattern)` keeps the
  names starting with the literal part of the pattern (the trailing `*`
  matches any suffix, including the empty one), preserving that order, and
  `found_files[0]` is the head of that list.
* `secrets.token_urlsafe(16)` is modelled by a stream `mint : Nat → String`
  together with a counter `n` of tokens minted so far: the k-th call returns
  `mint k`.  Cryptographic uniqueness of tokens is the hypothesis
  `Function.Injective mint` where a theorem needs it.
* The module-level mutable `cache` dict becomes an explicit `Cache` value
  threaded through `update_daily_data`, which returns the new cache and the
  new mint counter.
-/

/-- `CATEGORIES = ['category1', 'category2']` (app.py line 12). -/
def CATEGORIES : List String := ["category1", "category2"]

/-- A value of the `cache['images']` dict:
`{'category': ..., 'filename': ...}` (app.py line 53). -/
structure ImageDetails where
  category : String
  filename : String
deriving DecidableEq, Repr

/-- The module-level `cache` dict (app.py lines 16–20): `date` is `None` or a
date ordinal, `images` maps slot keys to details, `url_map` maps random
tokens to slot keys. -/
structure Cache where
  date : Option Int
  images : List (String × ImageDetails)
  url_map : List (String × String)
deriving DecidableEq, Repr

/-- The initial cache `{'date': None, 'images': {}, 'url_map': {}}`. -/
def initCache : Cache := ⟨none, [], []⟩

/-- The explicit empty-day cache `{'date': today, 'images': {}, 'url_map': {}}`
written on the out-of-range and incomplete-scan paths (app.py lines 38, 58). -/
def emptyDay (today : Int) : Cache := ⟨some today, [], []⟩

/-- `day_of_cycle = (today - start_date).days + 1` (app.py line 34). -/
def dayOfCycle (today start : Int) : Int := today - start + 1

/-- The slot keys iterated by the nested loops of `update_daily_data`
(app.py lines 44–46): each category paired with pic indices 1 and 2. -/
def SLOTS : List (String × Nat) := CATEGORIES.flatMap fun c => [(c, 1), (c, 2)]

/-- The literal part of the glob pattern
`f"pic{day_of_cycle}(cat{cat_num}-pic{i}).*"` (app.py lines 42, 48), where
`cat_num = category[-1]` is the category's last character. A basename matches
the pattern iff it starts with this string. -/
def slotPattern (d : Int) (catNum : Char) (i : Nat) : String :=
  "pic" ++ toString d ++ "(cat" ++ String.mk [catNum] ++ "-pic" ++ toString i ++ ")."

/-- The slot key `f"cat{cat_num}_pic{i}"` (app.py line 52). -/
def slotKey (catNum : Char) (i : Nat) : String :=
  "cat" ++ String.mk [catNum] ++ "_pic" ++ toString i

/-- A basename matches the glob pattern iff the pattern's literal part is a
character-wise start of the name (the trailing `*` matches any suffix);
equivalent to `f.startsWith pat`, stated on character lists. -/
def globMatch (pat f : String) : Bool :=
  pat.toList.isPrefixOf f.toList

/-- `found_files = glob(search_pattern)` (app.py line 49): the basenames in
the category's directory matching the slot's pattern, in directory order. -/
def matchesOf (fs : String → List String) (d : Int) (category : String) (i : Nat) :
    List String :=
  (fs category).filter fun f => globMatch (slotPattern d category.back i) f

/-- One iteration of the inner loop body (app.py lines 48–53): if any file
matches, the slot key is bound to the first match's basename, else nothing
is recorded. -/
def resolveSlot (fs : String → List String) (d : Int) (category : String) (i : Nat) :
    Option (String × ImageDetails) :=
  match matchesOf fs d category i with
  | [] => none
  | f :: _ => some (slotKey category.back i, ⟨category, f⟩)

/-- The `found_images` dict after the nested loops (app.py lines 41–53);
keys are inserted in loop order and the four slot keys are pairwise
distinct, so the dict is the list of resolved slots. -/
def resolveImages (fs : String → List String) (d : Int) :
    List (String × ImageDetails) :=
  SLOTS.filterMap fun s => resolveSlot fs d s.1 s.2

/-- Python dict insertion `m[k] = v`: overwrite in place if the key is
present, append otherwise. -/
def dictInsert (m : List (String × String)) (k v : String) :
    List (String × String) :=
  if (m.find? fun p => p.1 == k).isSome then
    m.map fun p => if p.1 == k then (p.1, v) else p
  else m ++ [(k, v)]

/-- The loop building `new_url_map` (app.py lines 62–65): for each key of
`found_images`, in order, insert `new_url_map[token] = key` with the next
minted token. -/
def buildUrlMapAux (mint : Nat → String) :
    Nat → List String → List (String × String) → List (String × String)
  | _, [], m => m
  | n, k :: ks, m => buildUrlMapAux mint (n + 1) ks (dictInsert m (mint n) k)

/-- `new_url_map` built from scratch (app.py line 62). -/
def buildUrlMap (mint : Nat → String) (n : Nat) (keys : List String) :
    List (String × String) :=
  buildUrlMapAux mint n keys []

/-- `update_daily_data()` (app.py lines 22–69). Returns the new cache and the
new mint counter. The float of control: the freshness no-op (line 29), the
range check (line 36), the completeness check (line 55), and the success path
that mints one token per found image (lines 61–69). -/
def update_daily_data (fs : String → List String) (today start : Int)
    (mint : Nat → String) (n : Nat) (c : Cache) : Cache × Nat :=
  if c.date = some today ∧ c.images ≠ [] then (c, n)
  else if ¬ (1 ≤ dayOfCycle today start ∧ dayOfCycle today start ≤ 730) then
    (emptyDay today, n)
  else if (resolveImages fs (dayOfCycle today start)).length ≠ 4 then
    (emptyDay today, n)
  else
    (⟨some today, resolveImages fs (dayOfCycle today start),
      buildUrlMap mint n ((resolveImages fs (dayOfCycle today start)).map Prod.fst)⟩,
     n + (resolveImages fs (dayOfCycle today start)).length)

/-- The cache after `update_daily_data()` has run. -/
def afterUpdate (fs : String → List String) (today start : Int)
    (mint : Nat → String) (n : Nat) (c : Cache) : Cache :=
  (update_daily_data fs today start mint n c).1

/-- Python dict lookup `m[k]` / `k in m` as an option. -/
def lookup {α : Type} (m : List (String × α)) (k : String) : Option α :=
  (m.find? fun p => p.1 == k).map fun p => p.2

/-- Outcome of the `image_page` handler body after `update_daily_data`:
`abort(404)`, a `KeyError` from `cache['images'][key]`, or a rendered page
with the image source URL. -/
inductive PageResult where
  | notFound
  | keyError
  | render (image_src : String)
deriving DecidableEq, Repr

/-- `url_for('image_file', category=..., filename=...)` (app.py line 102). -/
def imageSrc (category filename : String) : String :=
  "/img/" ++ category ++ "/" ++ filename

/-- The `image_page` handler (app.py lines 93–103) applied to the current
cache: 404 if the token is not a `url_map` key, else look up the slot key and
its details and render. -/
def image_page (c : Cache) (random_url : String) : PageResult :=
  match lookup c.url_map random_url with
  | none => .notFound
  | some key =>
    match lookup c.images key with
    | none => .keyError
    | some d => .render (imageSrc d.category d.filename)

/-- The `is_valid` loop of `image_file` (app.py lines 109–113): some value of
`cache['images']` has exactly this category and filename. -/
def is_valid (c : Cache) (category filename : String) : Bool :=
  c.images.any fun q => q.2.category == category && q.2.filename == filename

/-- Outcome of the `image_file` handler body: `abort(403)` or
`send_from_directory(os.path.join(PHOTOS_DIR, category), filename)`. -/
inductive FileResult where
  | forbidden
  | sendFromDirectory (directory filename : String)
deriving DecidableEq, Repr

/-- The `image_file` handler (app.py lines 105–118) applied to the current
cache. -/
def image_file (c : Cache) (category filename : String) : FileResult :=
  if is_valid c category filename then
    .sendFromDirectory ("photos/" ++ category) filename
  else .forbidden

/-! ## Concrete directory states and a concrete token stream, for witnesses. -/

/-- A token stream with pairwise-distinct values, standing in for
`secrets.token_urlsafe`. -/
def mintDemo (k : Nat) : String := String.mk (List.replicate k 'a')

/-- A directory state with all four of day 1's files present
(scenario A of the spec). -/
def fsA : String → List String := fun c =>
  if c = "category1" then ["pic1(cat1-pic1).jpg", "pic1(cat1-pic2).png"]
  else if c = "category2" then ["pic1(cat2-pic1).jpg", "pic1(cat2-pic2).jpg"]
  else []

/-- A directory state with only 3 of day 1's 4 files
(scenario B of the spec: `category2` slot 2 is missing). -/
def fs3 : String → List String := fun c =>
  if c = "category1" then ["pic1(cat1-pic1).jpg", "pic1(cat1-pic2).png"]
  else if c = "category2" then ["pic1(cat2-pic1).jpg"]
  else []

/-- A directory state where two files match the `(category1, 1)` slot of
day 1. -/
def fsDup : String → List String := fun c =>
  if c = "category1" then
    ["pic1(cat1-pic1).jpg", "pic1(cat1-pic1).png", "pic1(cat1-pic2).jpg"]
  else if c = "category2" then ["pic1(cat2-pic1).jpg", "pic1(cat2-pic2).jpg"]
  else []

/-- `mintDemo` never repeats a token. -/
lemma mintDemo_inj : Function.Injective mintDemo := by
  intro a b h
  have h2 : List.replicate a 'a' = List.replicate b 'a' := congrArg String.data h
  simpa using congrArg List.length h2

/-! ## Cache invariants -/

/-- Every `url_map` value is a key of `images`. -/
def goodCacheB (c : Cache) : Bool :=
  c.url_map.all fun p => c.images.any fun q => q.1 == p.2

/-- Every `images` value carries a category from `CATEGORIES`. -/
def catInvB (c : Cache) : Bool :=
  c.images.all fun q => CATEGORIES.contains q.2.category

/-- `url_map` and `images` are in bijection: same size, each `images` key is
the value of exactly one `url_map` entry, and each `url_map` value is an
`images` key. -/
def bijInvB (c : Cache) : Bool :=
  c.url_map.length == c.images.length
    && (c.images.all fun q => (c.url_map.filter fun p => p.2 == q.1).length == 1)
    && (c.url_map.all fun p => c.images.any fun q => q.1 == p.2)

/-! ## Helper lemmas -/

lemma resolveSlot_eq_some {fs : String → List String} {d : Int} {category : String}
    {i : Nat} {p : String × ImageDetails} (h : resolveSlot fs d category i = some p) :
    p.1 = slotKey category.back i ∧ p.2.category = category := by
  unfold resolveSlot at h
  cases hm : matchesOf fs d category i with
  | nil => rw [hm] at h; exact absurd h (by simp)
  | cons f rest => rw [hm] at h; cases h; exact ⟨rfl, rfl⟩

lemma mem_resolveImages {fs : String → List String} {d : Int}
    {p : String × ImageDetails} :
    p ∈ resolveImages fs d ↔ ∃ s ∈ SLOTS, resolveSlot fs d s.1 s.2 = some p := by
  simp [resolveImages, List.mem_filterMap]

lemma filterMap_map_fst_sublist {α β γ : Type} (l : List α) (f : α → Option (β × γ))
    (g : α → β) (h : ∀ a p, f a = some p → p.1 = g a) :
    ((l.filterMap f).map Prod.fst).Sublist (l.map g) := by
  induction l with
  | nil => simp
  | cons a l ih =>
    cases hfa : f a with
    | none =>
      rw [List.filterMap_cons_none hfa, List.map_cons]
      exact (ih).cons (g a)
    | some p =>
      rw [List.filterMap_cons_some hfa, List.map_cons, List.map_cons, h a p hfa]
      exact (ih).cons₂ (g a)

/-- The keys of the resolved images are (a sublist of) the four distinct slot
keys, hence contain no duplicate. -/
lemma resolveImages_keys_nodup (fs : String → List String) (d : Int) :
    ((resolveImages fs d).map Prod.fst).Nodup := by
  have hsub : ((resolveImages fs d).map Prod.fst).Sublist
      (SLOTS.map fun s => slotKey s.1.back s.2) := by
    apply filterMap_map_fst_sublist
    intro a p hp
    exact (resolveSlot_eq_some hp).1
  exact hsub.nodup (by decide)

lemma dictInsert_of_not_mem {m : List (String × String)} {k : String} (v : String)
    (h : k ∉ m.map Prod.fst) : dictInsert m k v = m ++ [(k, v)] := by
  have hnone : (m.find? fun p => p.1 == k) = none := by
    rw [List.find?_eq_none]
    intro p hp hbeq
    exact h (by
      have hpk : p.1 = k := by simpa using hbeq
      exact hpk ▸ List.mem_map_of_mem Prod.fst hp)
  unfold dictInsert
  rw [hnone]
  simp

lemma mem_dictInsert {m : List (String × String)} {k v : String}
    {q : String × String} (h : q ∈ dictInsert m k v) : q ∈ m ∨ q.2 = v := by
  unfold dictInsert at h
  split at h
  · rcases List.mem_map.mp h with ⟨p, hpm, hpq⟩
    by_cases hk : p.1 == k
    · right; rw [if_pos hk] at hpq; rw [← hpq]
    · left; rw [if_neg hk] at hpq; rwa [← hpq]
  · rcases List.mem_append.mp h with h1 | h1
    · exact Or.inl h1
    · right; rw [List.mem_singleton.mp h1]

/-- The pairs the token-minting loop appends when no token collides:
`(mint n, k₀), (mint (n+1), k₁), …`. -/
def mintPairs (mint : Nat → String) : Nat → List String → List (String × String)
  | _, [] => []
  | n, k :: ks => (mint n, k) :: mintPairs mint (n + 1) ks

lemma mem_buildUrlMapAux {mint : Nat → String} :
    ∀ {ks : List String} {n : Nat} {m : List (String × String)}
      {q : String × String}, q ∈ buildUrlMapAux mint n ks m → q ∈ m ∨ q.2 ∈ ks := by
  intro ks
  induction ks with
  | nil => intro n m q h; exact Or.inl h
  | cons k ks ih =>
    intro n m q h
    rcases ih h with h1 | h1
    · rcases mem_dictInsert h1 with h2 | h2
      · exact Or.inl h2
      · exact Or.inr (h2 ▸ List.mem_cons_self k ks)
    · exact Or.inr (List.mem_cons_of_mem k h1)

lemma buildUrlMapAux_eq_append {mint : Nat → String}
    (hinj : Function.Injective mint) :
    ∀ (ks : List String) (n : Nat) (m : List (String × String)),
      (∀ j, j < ks.length → mint (n + j) ∉ m.map Prod.fst) →
      buildUrlMapAux mint n ks m = m ++ mintPairs mint n ks := by
  intro ks
  induction ks with
  | nil => intro n m _; simp [buildUrlMapAux, mintPairs]
  | cons k ks ih =>
    intro n m hfresh
    have h0 : mint n ∉ m.map Prod.fst := by
      have := hfresh 0 (by simp)
      simpa using this
    have hins : dictInsert m (mint n) k = m ++ [(mint n, k)] :=
      dictInsert_of_not_mem k h0
    have hrest : ∀ j, j < ks.length →
        mint (n + 1 + j) ∉ (m ++ [(mint n, k)]).map Prod.fst := by
      intro j hj hmem
      rw [List.map_append] at hmem
      rcases List.mem_append.mp hmem with h1 | h1
      · have := hfresh (j + 1) (by simpa using Nat.succ_lt_succ hj)
        exact this (by
          have : n + (j + 1) = n + 1 + j := by omega
          rwa [this])
      · simp only [List.map_cons, List.map_nil, List.mem_singleton] at h1
        have := hinj h1
        omega
    calc buildUrlMapAux mint n (k :: ks) m
        = buildUrlMapAux mint (n + 1) ks (m ++ [(mint n, k)]) := by
          rw [buildUrlMapAux, hins]
      _ = (m ++ [(mint n, k)]) ++ mintPairs mint (n + 1) ks := ih (n + 1) _ hrest
      _ = m ++ mintPairs mint n (k :: ks) := by
          rw [List.append_assoc]; rfl

lemma buildUrlMap_eq_mintPairs {mint : Nat → String}
    (hinj : Function.Injective mint) (n : Nat) (ks : List String) :
    buildUrlMap mint n ks = mintPairs mint n ks := by
  have := buildUrlMapAux_eq_append hinj ks n [] (by simp)
  simpa [buildUrlMap] using this

lemma mintPairs_length (mint : Nat → String) :
    ∀ (n : Nat) (ks : List String), (mintPairs mint n ks).length = ks.length := by
  intro n ks
  induction ks generalizing n with
  | nil => rfl
  | cons k ks ih => simp [mintPairs, ih]

lemma mintPairs_snd_mem {mint : Nat → String} :
    ∀ {n : Nat} {ks : List String} {p : String × String},
      p ∈ mintPairs mint n ks → p.2 ∈ ks := by
  intro n ks
  induction ks generalizing n with
  | nil => intro p h; exact absurd h (by simp [mintPairs])
  | cons k ks ih =>
    intro p h
    rcases List.mem_cons.mp h with h1 | h1
    · rw [h1]; exact List.mem_cons_self k ks
    · exact List.mem_cons_of_mem k (ih h1)

lemma mintPairs_filter_snd (mint : Nat → String) (a : String) :
    ∀ (n : Nat) (ks : List String),
      ((mintPairs mint n ks).filter fun p => p.2 == a).length = ks.count a := by
  intro n ks
  induction ks generalizing n with
  | nil => rfl
  | cons k ks ih =>
    by_cases hk : k == a
    · simp [mintPairs, List.filter_cons, hk, List.count_cons, ih]
    · simp [mintPairs, List.filter_cons, hk, List.count_cons, ih]

/-! ## Branch lemmas for `update_daily_data` -/

lemma update_fresh {fs : String → List String} {today start : Int}
    {mint : Nat → String} {n : Nat} {c : Cache}
    (h : c.date = some today ∧ c.images ≠ []) :
    update_daily_data fs today start mint n c = (c, n) := by
  simp [update_daily_data, h]

lemma update_out_of_range {fs : String → List String} {today start : Int}
    {mint : Nat → String} {n : Nat} {c : Cache}
    (h1 : ¬(c.date = some today ∧ c.images ≠ []))
    (h2 : ¬(1 ≤ dayOfCycle today start ∧ dayOfCycle today start ≤ 730)) :
    update_daily_data fs today start mint n c = (emptyDay today, n) := by
  simp [update_daily_data, h1, h2]

lemma update_incomplete {fs : String → List String} {today start : Int}
    {mint : Nat → String} {n : Nat} {c : Cache}
    (h1 : ¬(c.date = some today ∧ c.images ≠ []))
    (h2 : 1 ≤ dayOfCycle today start ∧ dayOfCycle today start ≤ 730)
    (h3 : (resolveImages fs (dayOfCycle today start)).length ≠ 4) :
    update_daily_data fs today start mint n c = (emptyDay today, n) := by
  simp [update_daily_data, h1, h2, h3]

lemma update_success {fs : String → List String} {today start : Int}
    {mint : Nat → String} {n : Nat} {c : Cache}
    (h1 : ¬(c.date = some today ∧ c.images ≠ []))
    (h2 : 1 ≤ dayOfCycle today start ∧ dayOfCycle today start ≤ 730)
    (h3 : (resolveImages fs (dayOfCycle today start)).length = 4) :
    update_daily_data fs today start mint n c =
      (⟨some today, resolveImages fs (dayOfCycle today start),
        buildUrlMap mint n ((resolveImages fs (dayOfCycle today start)).map Prod.fst)⟩,
       n + (resolveImages fs (dayOfCycle today start)).length) := by
  simp [update_daily_data, h1, h2, h3]

/-! ## Invariant preservation -/

lemma slots_fst_mem : ∀ s ∈ SLOTS, s.1 ∈ CATEGORIES := by decide

lemma goodCacheB_init : goodCacheB initCache = true := by decide

lemma goodCacheB_afterUpdate (fs : String → List String) (today start : Int)
    (mint : Nat → String) (n : Nat) (c : Cache) (h : goodCacheB c = true) :
    goodCacheB (afterUpdate fs today start mint n c) = true := by
  unfold afterUpdate
  by_cases h1 : c.date = some today ∧ c.images ≠ []
  · rw [update_fresh h1]; exact h
  · by_cases h2 : 1 ≤ dayOfCycle today start ∧ dayOfCycle today start ≤ 730
    · by_cases h3 : (resolveImages fs (dayOfCycle today start)).length = 4
      · rw [update_success h1 h2 h3]
        simp only [goodCacheB, List.all_eq_true, List.any_eq_true, beq_iff_eq]
        intro p hp
        have hmem : p ∈ ([] : List (String × String)) ∨
            p.2 ∈ (resolveImages fs (dayOfCycle today start)).map Prod.fst :=
          mem_buildUrlMapAux (by simpa [buildUrlMap] using hp)
        rcases hmem with habs | hks
        · exact absurd habs (by simp)
        · rcases List.mem_map.mp hks with ⟨q, hq, hq1⟩
          exact ⟨q, hq, hq1⟩
      · rw [update_incomplete h1 h2 h3]; simp [goodCacheB, emptyDay]
    · rw [update_out_of_range h1 h2]; simp [goodCacheB, emptyDay]

lemma catInvB_init : catInvB initCache = true := by decide

lemma catInvB_afterUpdate (fs : String → List String) (today start : Int)
    (mint : Nat → String) (n : Nat) (c : Cache) (h : catInvB c = true) :
    catInvB (afterUpdate fs today start mint n c) = true := by
  unfold afterUpdate
  by_cases h1 : c.date = some today ∧ c.images ≠ []
  · rw [update_fresh h1]; exact h
  · by_cases h2 : 1 ≤ dayOfCycle today start ∧ dayOfCycle today start ≤ 730
    · by_cases h3 : (resolveImages fs (dayOfCycle today start)).length = 4
      · rw [update_success h1 h2 h3]
        simp only [catInvB, List.all_eq_true]
        intro q hq
        rcases mem_resolveImages.mp hq with ⟨s, hs, hslot⟩
        have hcat : q.2.category = s.1 := (resolveSlot_eq_some hslot).2
        have : s.1 ∈ CATEGORIES := slots_fst_mem s hs
        rw [hcat]
        exact List.elem_iff.mpr this
      · rw [update_incomplete h1 h2 h3]; simp [catInvB, emptyDay]
    · rw [update_out_of_range h1 h2]; simp [catInvB, emptyDay]

lemma bijInvB_init : bijInvB initCache = true := by decide

lemma bijInvB_afterUpdate {mint : Nat → String} (hinj : Function.Injective mint)
    (fs : String → List String) (today start : Int) (n : Nat) (c : Cache)
    (h : bijInvB c = true) :
    bijInvB (afterUpdate fs today start mint n c) = true := by
  unfold afterUpdate
  by_cases h1 : c.date = some today ∧ c.images ≠ []
  · rw [update_fresh h1]; exact h
  · by_cases h2 : 1 ≤ dayOfCycle today start ∧ dayOfCycle today start ≤ 730
    · by_cases h3 : (resolveImages fs (dayOfCycle today start)).length = 4
      · rw [update_success h1 h2 h3]
        have hks : buildUrlMap mint n ((resolveImages fs (dayOfCycle today start)).map Prod.fst)
            = mintPairs mint n ((resolveImages fs (dayOfCycle today start)).map Prod.fst) :=
          buildUrlMap_eq_mintPairs hinj n _
        simp only [bijInvB, Bool.and_eq_true, List.all_eq_true, List.any_eq_true,
          beq_iff_eq]
        refine ⟨⟨?_, ?_⟩, ?_⟩
        · rw [hks, mintPairs_length, List.length_map]
        · intro q hq
          rw [hks, mintPairs_filter_snd]
          have hnd := resolveImages_keys_nodup fs (dayOfCycle today start)
          have hqmem : q.1 ∈ (resolveImages fs (dayOfCycle today start)).map Prod.fst :=
            List.mem_map_of_mem Prod.fst hq
          exact List.count_eq_one_of_mem hnd hqmem
        · intro p hp
          rw [hks] at hp
          have hsnd := mintPairs_snd_mem hp
          rcases List.mem_map.mp hsnd with ⟨q, hq, hq1⟩
          exact ⟨q, hq, hq1⟩
      · rw [update_incomplete h1 h2 h3]; simp [bijInvB, emptyDay]
    · rw [update_out_of_range h1 h2]; simp [bijInvB, emptyDay]

lemma exists_of_lookup_eq_some {α : Type} {m : List (String × α)} {k : String}
    {v : α} (h : lookup m k = some v) : ∃ p ∈ m, p.1 = k ∧ p.2 = v := by
  unfold lookup at h
  cases hf : m.find? (fun p => p.1 == k) with
  | none => rw [hf] at h; exact absurd h (by simp)
  | some p =>
    rw [hf] at h
    have hmem := List.mem_of_find?_eq_some hf
    have hpk := List.find?_some hf
    exact ⟨p, hmem, by simpa using hpk, by simpa using h⟩

lemma lookup_isSome_of_exists {α : Type} {m : List (String × α)} {k : String}
    (h : ∃ q ∈ m, q.1 = k) : ∃ v, lookup m k = some v := by
  rcases h with ⟨q, hq, hqk⟩
  unfold lookup
  cases hf : m.find? (fun p => p.1 == k) with
  | some p => exact ⟨p.2, by simp [hf]⟩
  | none =>
    rw [List.find?_eq_none] at hf
    exact absurd (beq_iff_eq.mpr hqk) (hf q hq)

/-! ## Claims -/

/-- Claim C1: whenever `update_daily_data` actually recomputes (the freshness
no-op does not fire) and either the day index lies outside `[1, 730]` or the
scan does not resolve all 4 slots, the cache is replaced with the explicit
empty-day state `{cachedDate: today, images: {}, urlMap: {}}`. -/
theorem claim_C1 (fs : String → List String) (today start : Int)
    (mint : Nat → String) (n : Nat) (c : Cache)
    (hstale : ¬(c.date = some today ∧ c.images ≠ []))
    (hbad : ¬(1 ≤ dayOfCycle today start ∧ dayOfCycle today start ≤ 730) ∨
      (resolveImages fs (dayOfCycle today start)).length ≠ 4) :
    afterUpdate fs today start mint n c = emptyDay today := by
  unfold afterUpdate
  by_cases h2 : 1 ≤ dayOfCycle today start ∧ dayOfCycle today start ≤ 730
  · rcases hbad with h2' | h3
    · exact absurd h2 h2'
    · rw [update_incomplete hstale h2 h3]
  · rw [update_out_of_range hstale h2]

/-- Claim C1 witness: with only 3 of day 1's 4 files on disk (scenario B),
`update_daily_data` yields the explicit empty-day cache. -/
theorem claim_C1_witness :
    ¬(initCache.date = some 1 ∧ initCache.images ≠ []) ∧
    (resolveImages fs3 (dayOfCycle 1 1)).length ≠ 4 ∧
    afterUpdate fs3 1 1 mintDemo 0 initCache = emptyDay 1 :=
  ⟨by decide, by decide,
    claim_C1 fs3 1 1 mintDemo 0 initCache (by decide) (Or.inr (by decide))⟩

/-- Claim C2: the `is_valid` loop of `image_file` returns true iff some entry
of the current cache's `images` mapping has exactly the requested category and
filename — in particular it is false for any filename not among today's
cached images, the on-disk directory contents being no input to the check. -/
theorem claim_C2 (c : Cache) (category filename : String) :
    is_valid c category filename = true ↔
      ∃ k d, (k, d) ∈ c.images ∧ d.category = category ∧ d.filename = filename := by
  unfold is_valid
  rw [List.any_eq_true]
  constructor
  · rintro ⟨q, hq, hb⟩
    rw [Bool.and_eq_true, beq_iff_eq, beq_iff_eq] at hb
    exact ⟨q.1, q.2, by simpa using hq, hb.1, hb.2⟩
  · rintro ⟨k, d, hmem, h1, h2⟩
    exact ⟨(k, d), hmem, by simp [h1, h2]⟩

/-- Claim C3: provided the token stream never repeats (the model of
cryptographically random tokens), `update_daily_data` preserves the bijection
invariant from the initial cache on: `|url_map| = |images|`, each `images` key
is the value of exactly one `url_map` entry and conversely every `url_map`
value is an `images` key; and whenever `images` is empty, `url_map` is
empty. -/
theorem claim_C3 (mint : Nat → String) (hinj : Function.Injective mint) :
    bijInvB initCache = true ∧
    (∀ (fs : String → List String) (today start : Int) (n : Nat) (c : Cache),
        bijInvB c = true → bijInvB (afterUpdate fs today start mint n c) = true) ∧
    (∀ c : Cache, bijInvB c = true → c.images = [] → c.url_map = []) := by
  refine ⟨bijInvB_init,
    fun fs today start n c h => bijInvB_afterUpdate hinj fs today start n c h, ?_⟩
  intro c h hemp
  simp only [bijInvB, Bool.and_eq_true, beq_iff_eq] at h
  have hlen : c.url_map.length = c.images.length := h.1.1
  rw [hemp] at hlen
  exact List.eq_nil_of_length_eq_zero (by simpa using hlen)

/-- Claim C3 witness: a fully populated day built with the injective demo
token stream satisfies the bijection invariant. -/
theorem claim_C3_witness :
    bijInvB (afterUpdate fsA 1 1 mintDemo 0 initCache) = true :=
  (claim_C3 mintDemo mintDemo_inj).2.1 fsA 1 1 0 initCache (by decide)

/-- Claim C4: for a fixed date and a fixed directory state, a second call of
`update_daily_data` right after a first one returns exactly the first call's
cache and mint counter: `cachedDate`, `images`, `url_map` are unchanged and no
new token is minted. -/
theorem claim_C4 (fs : String → List String) (today start : Int)
    (mint : Nat → String) (n : Nat) (c : Cache) :
    update_daily_data fs today start mint
        (update_daily_data fs today start mint n c).2
        (update_daily_data fs today start mint n c).1
      = update_daily_data fs today start mint n c := by
  by_cases h1 : c.date = some today ∧ c.images ≠ []
  · rw [update_fresh h1, update_fresh h1]
  · by_cases h2 : 1 ≤ dayOfCycle today start ∧ dayOfCycle today start ≤ 730
    · by_cases h3 : (resolveImages fs (dayOfCycle today start)).length = 4
      · rw [update_success h1 h2 h3]
        apply update_fresh
        refine ⟨rfl, ?_⟩
        intro hnil
        have hnil' : resolveImages fs (dayOfCycle today start) = [] := hnil
        rw [hnil'] at h3
        exact absurd h3 (by decide)
      · rw [update_incomplete h1 h2 h3]
        exact update_incomplete (by simp [emptyDay]) h2 h3
    · rw [update_out_of_range h1 h2]
      exact update_out_of_range (by simp [emptyDay]) h2

/-- Claim C5: the day index equals `(today - cycleStart) + 1`; over the cycle
window it is strictly increasing and contiguous, covering `[1, 730]` with no
gaps or repeats; and for a date outside the window (with the recompute path
taken) the cache becomes the explicit empty-day state. -/
theorem claim_C5 (start : Int) :
    (∀ d, dayOfCycle d start = d - start + 1) ∧
    (∀ d1 d2, d1 < d2 → dayOfCycle d1 start < dayOfCycle d2 start) ∧
    (∀ d, dayOfCycle (d + 1) start = dayOfCycle d start + 1) ∧
    (∀ d, start ≤ d → d < start + 730 →
        1 ≤ dayOfCycle d start ∧ dayOfCycle d start ≤ 730) ∧
    (∀ k, 1 ≤ k → k ≤ 730 →
        ∃ d, (start ≤ d ∧ d < start + 730 ∧ dayOfCycle d start = k) ∧
          ∀ d', start ≤ d' → d' < start + 730 → dayOfCycle d' start = k → d' = d) ∧
    (∀ (fs : String → List String) (mint : Nat → String) (n : Nat) (c : Cache)
        (d : Int), ¬(c.date = some d ∧ c.images ≠ []) →
        (d < start ∨ start + 730 ≤ d) →
        afterUpdate fs d start mint n c = emptyDay d) := by
  refine ⟨fun d => rfl, ?_, ?_, ?_, ?_, ?_⟩
  · intro d1 d2 h; unfold dayOfCycle; omega
  · intro d; unfold dayOfCycle; omega
  · intro d h1 h2; unfold dayOfCycle; omega
  · intro k h1 h2
    refine ⟨start + k - 1, ⟨by omega, by omega, by unfold dayOfCycle; omega⟩, ?_⟩
    intro d' _ _ h3
    unfold dayOfCycle at h3
    omega
  · intro fs mint n c d hstale hout
    unfold afterUpdate
    rw [update_out_of_range hstale (by unfold dayOfCycle; omega)]

/-- Claim C5 witness: concrete instances of monotonicity, range coverage and
the out-of-window empty cache (day 1001 with cycle start 0). -/
theorem claim_C5_witness :
    dayOfCycle 3 0 < dayOfCycle 5 0 ∧
    (1 ≤ dayOfCycle 10 0 ∧ dayOfCycle 10 0 ≤ 730) ∧
    afterUpdate fsA 1000 0 mintDemo 0 initCache = emptyDay 1000 :=
  ⟨(claim_C5 0).2.1 3 5 (by decide),
   (claim_C5 0).2.2.2.1 10 (by decide) (by decide),
   (claim_C5 0).2.2.2.2.2 fsA mintDemo 0 initCache 1000 (by decide)
     (Or.inr (by decide))⟩

lemma slotKey_inj_on :
    ∀ s ∈ SLOTS, ∀ s' ∈ SLOTS,
      slotKey s.1.back s.2 = slotKey s'.1.back s'.2 → s = s' := by decide

/-- Claim C6 counterexample: with two files matching the `(category1, 1)`
slot of day 1, the slot is nonetheless present in the resolved images — the
code takes the first match rather than rejecting the slot. -/
theorem claim_C6_cex :
    ¬(1 < (matchesOf fsDup 1 "category1" 1).length →
        slotKey "category1".back 1 ∉ (resolveImages fsDup 1).map Prod.fst) := by
  decide

/-- Claim C6 (amended): during image resolution, a slot is absent from the
resolved images exactly when zero candidate files match its pattern; when one
or more candidates match (more than one included), the slot is present and
bound to the first matching file. -/
theorem claim_C6 (fs : String → List String) (d : Int) (cat : String) (i : Nat)
    (hs : (cat, i) ∈ SLOTS) :
    (matchesOf fs d cat i = [] →
        slotKey cat.back i ∉ (resolveImages fs d).map Prod.fst) ∧
    (∀ f rest, matchesOf fs d cat i = f :: rest →
        (slotKey cat.back i, ImageDetails.mk cat f) ∈ resolveImages fs d) := by
  constructor
  · intro hempty hmem
    rcases List.mem_map.mp hmem with ⟨p, hp, hpk⟩
    rcases mem_resolveImages.mp hp with ⟨s, hsmem, hslot⟩
    have hkey : p.1 = slotKey s.1.back s.2 := (resolveSlot_eq_some hslot).1
    have hseq : s = (cat, i) := by
      apply slotKey_inj_on s hsmem (cat, i) hs
      rw [← hkey, hpk]
    rw [hseq] at hslot
    unfold resolveSlot at hslot
    rw [hempty] at hslot
    exact absurd hslot (by simp)
  · intro f rest hmatch
    apply mem_resolveImages.mpr
    refine ⟨(cat, i), hs, ?_⟩
    unfold resolveSlot
    rw [hmatch]

/-- Claim C6 witness: the unmatched `(category2, 2)` slot of the 3-file
directory is absent, and the doubly-matched `(category1, 1)` slot of the
duplicate directory resolves to its first match. -/
theorem claim_C6_witness :
    slotKey "category2".back 2 ∉ (resolveImages fs3 1).map Prod.fst ∧
    (slotKey "category1".back 1, ImageDetails.mk "category1" "pic1(cat1-pic1).jpg")
      ∈ resolveImages fsDup 1 := by
  constructor
  · exact (claim_C6 fs3 1 "category2" 2 (by decide)).1 (by decide)
  · exact (claim_C6 fsDup 1 "category1" 1 (by decide)).2 "pic1(cat1-pic1).jpg"
      ["pic1(cat1-pic1).png"] (by decide)

/-- Claim C7: after freshness is ensured, `GET /page/{token}` responds 404
exactly when the token is no key of the current `url_map`, otherwise (for a
cache whose `url_map` values are `images` keys, which every reachable cache
is) it renders the looked-up image; and `GET /img/{category}/{filename}`
responds 403 exactly when the `is_valid` check fails, otherwise it streams
the file from the category's directory. -/
theorem claim_C7 :
    (∀ (fs : String → List String) (today start : Int) (mint : Nat → String)
        (n : Nat) (c : Cache) (t : String),
        image_page (afterUpdate fs today start mint n c) t = PageResult.notFound ↔
          lookup (afterUpdate fs today start mint n c).url_map t = none) ∧
    (∀ (fs : String → List String) (today start : Int) (mint : Nat → String)
        (n : Nat) (c : Cache) (t k : String), goodCacheB c = true →
        lookup (afterUpdate fs today start mint n c).url_map t = some k →
        ∃ d, lookup (afterUpdate fs today start mint n c).images k = some d ∧
          image_page (afterUpdate fs today start mint n c) t =
            PageResult.render (imageSrc d.category d.filename)) ∧
    (∀ (c : Cache) (cat fn : String),
        image_file c cat fn = FileResult.forbidden ↔ is_valid c cat fn = false) ∧
    (∀ (c : Cache) (cat fn : String), is_valid c cat fn = true →
        image_file c cat fn = FileResult.sendFromDirectory ("photos/" ++ cat) fn) := by
  refine ⟨?_, ?_, ?_, ?_⟩
  · intro fs today start mint n c t
    cases hlk : lookup (afterUpdate fs today start mint n c).url_map t with
    | none => simp [image_page, hlk]
    | some k =>
      simp only [image_page, hlk]
      cases hlk2 : lookup (afterUpdate fs today start mint n c).images k with
      | none => simp [hlk2]
      | some d => simp [hlk2]
  · intro fs today start mint n c t k hgc hlk
    have hgc' : goodCacheB (afterUpdate fs today start mint n c) = true :=
      goodCacheB_afterUpdate fs today start mint n c hgc
    rcases exists_of_lookup_eq_some hlk with ⟨p, hpmem, hpk, hpv⟩
    have hall := List.all_eq_true.mp hgc' p hpmem
    rcases List.any_eq_true.mp hall with ⟨q, hq, hqb⟩
    have hqk : q.1 = k := by rw [beq_iff_eq] at hqb; rw [hqb, hpv]
    rcases lookup_isSome_of_exists ⟨q, hq, hqk⟩ with ⟨d, hd⟩
    exact ⟨d, hd, by simp [image_page, hlk, hd]⟩
  · intro c cat fn
    unfold image_file
    by_cases hv : is_valid c cat fn
    · simp [hv]
    · simp [hv, Bool.of_not_eq_true hv]
  · intro c cat fn hv
    simp [image_file, hv]

/-- Claim C7 witness: on the fully populated day-1 cache, the 404 criterion
for an unknown token, the render path for the token bound to `cat1_pic2`, and
the streaming path for a valid file. -/
theorem claim_C7_witness :
    (image_page (afterUpdate fsA 1 1 mintDemo 0 initCache) "zzz" =
        PageResult.notFound ↔
      lookup (afterUpdate fsA 1 1 mintDemo 0 initCache).url_map "zzz" = none) ∧
    (∃ d, lookup (afterUpdate fsA 1 1 mintDemo 0 initCache).images "cat1_pic2" =
        some d ∧
      image_page (afterUpdate fsA 1 1 mintDemo 0 initCache) "a" =
        PageResult.render (imageSrc d.category d.filename)) ∧
    image_file (afterUpdate fsA 1 1 mintDemo 0 initCache) "category1"
        "pic1(cat1-pic1).jpg" =
      FileResult.sendFromDirectory ("photos/" ++ "category1") "pic1(cat1-pic1).jpg" :=
  ⟨claim_C7.1 fsA 1 1 mintDemo 0 initCache "zzz",
   claim_C7.2.1 fsA 1 1 mintDemo 0 initCache "a" "cat1_pic2" (by decide) (by decide),
   claim_C7.2.2.2 (afterUpdate fsA 1 1 mintDemo 0 initCache) "category1"
     "pic1(cat1-pic1).jpg" (by decide)⟩

/-- Claim C9: every `url_map` value is an `images` key in the initial cache,
`update_daily_data` preserves this, and consequently on the non-404 path of
`image_page` after `update_daily_data` the lookups
`cache['url_map'][random_url]` and `cache['images'][key]` always succeed: no
`KeyError` is reachable. -/
theorem claim_C9 :
    goodCacheB initCache = true ∧
    (∀ (fs : String → List String) (today start : Int) (mint : Nat → String)
        (n : Nat) (c : Cache), goodCacheB c = true →
        goodCacheB (afterUpdate fs today start mint n c) = true) ∧
    (∀ (fs : String → List String) (today start : Int) (mint : Nat → String)
        (n : Nat) (c : Cache) (t : String), goodCacheB c = true →
        image_page (afterUpdate fs today start mint n c) t ≠ PageResult.keyError) := by
  refine ⟨goodCacheB_init, goodCacheB_afterUpdate, ?_⟩
  intro fs today start mint n c t hgc hke
  have hgc' : goodCacheB (afterUpdate fs today start mint n c) = true :=
    goodCacheB_afterUpdate fs today start mint n c hgc
  cases hlk : lookup (afterUpdate fs today start mint n c).url_map t with
  | none => rw [image_page, hlk] at hke; exact absurd hke (by simp)
  | some k =>
    rcases exists_of_lookup_eq_some hlk with ⟨p, hpmem, hpk, hpv⟩
    have hall := List.all_eq_true.mp hgc' p hpmem
    rcases List.any_eq_true.mp hall with ⟨q, hq, hqb⟩
    have hqk : q.1 = k := by rw [beq_iff_eq] at hqb; rw [hqb, hpv]
    rcases lookup_isSome_of_exists ⟨q, hq, hqk⟩ with ⟨d, hd⟩
    rw [image_page, hlk] at hke
    simp only [hd] at hke
    exact absurd hke (by simp)

/-- Claim C9 witness: on the populated day-1 cache no token can reach a
`KeyError` in `image_page`; instantiated at an arbitrary concrete token. -/
theorem claim_C9_witness :
    image_page (afterUpdate fsA 1 1 mintDemo 0 initCache) "aa" ≠
      PageResult.keyError :=
  claim_C9.2.2 fsA 1 1 mintDemo 0 initCache "aa" (by decide)

/-- Claim C10: every cached image detail carries a category from the fixed
`CATEGORIES` list — true initially and preserved by `update_daily_data` — so
whenever the `is_valid` check of `image_file` passes, the requested category
is `category1` or `category2`, and the serving branch only ever serves from
those two subdirectories of the photo root. -/
theorem claim_C10 :
    catInvB initCache = true ∧
    (∀ (fs : String → List String) (today start : Int) (mint : Nat → String)
        (n : Nat) (c : Cache), catInvB c = true →
        catInvB (afterUpdate fs today start mint n c) = true) ∧
    (∀ (c : Cache) (cat fn : String), catInvB c = true →
        is_valid c cat fn = true → cat = "category1" ∨ cat = "category2") ∧
    (∀ (c : Cache) (cat fn : String), catInvB c = true →
        image_file c cat fn ≠ FileResult.forbidden →
        image_file c cat fn = FileResult.sendFromDirectory ("photos/" ++ cat) fn ∧
          (cat = "category1" ∨ cat = "category2")) := by
  refine ⟨catInvB_init, catInvB_afterUpdate, ?_, ?_⟩
  · intro c cat fn hinv hv
    rcases List.any_eq_true.mp hv with ⟨q, hq, hqb⟩
    rw [Bool.and_eq_true, beq_iff_eq, beq_iff_eq] at hqb
    have hcontains := List.all_eq_true.mp hinv q hq
    have hmem : q.2.category ∈ CATEGORIES := List.elem_iff.mp hcontains
    rw [hqb.1] at hmem
    simpa [CATEGORIES] using hmem
  · intro c cat fn hinv hnf
    unfold image_file at hnf ⊢
    by_cases hv : is_valid c cat fn
    · rw [if_pos hv]
      refine ⟨rfl, ?_⟩
      rcases List.any_eq_true.mp hv with ⟨q, hq, hqb⟩
      rw [Bool.and_eq_true, beq_iff_eq, beq_iff_eq] at hqb
      have hcontains := List.all_eq_true.mp hinv q hq
      have hmem : q.2.category ∈ CATEGORIES := List.elem_iff.mp hcontains
      rw [hqb.1] at hmem
      simpa [CATEGORIES] using hmem
    · rw [if_neg hv] at hnf
      exact absurd rfl hnf

/-- Claim C10 witness: a traversal string in the category position fails the
check on the populated day-1 cache, and the one valid request is served from
the fixed `category1` subdirectory. -/
theorem claim_C10_witness :
    ("category1" = "category1" ∨ "category1" = "category2") ∧
    image_file (afterUpdate fsA 1 1 mintDemo 0 initCache) "category1"
        "pic1(cat1-pic1).jpg" =
      FileResult.sendFromDirectory ("photos/" ++ "category1") "pic1(cat1-pic1).jpg" := by
  have h := claim_C10.2.2.2 (afterUpdate fsA 1 1 mintDemo 0 initCache) "category1"
    "pic1(cat1-pic1).jpg" (by decide) (by decide)
  exact ⟨h.2, h.1⟩

